import Mathlib

/-!
Shallow embedding of the decode pipeline of `src/scope_capture.py`
(Siglent SDS 1104X-E waveform capture script).

Conventions of the embedding:
* Python `bytes` buffers are `List Nat` of byte values (0..255 in practice).
* Python floats are modelled as exact rationals `ℚ`; every numeric value the
  spec pins down is an exact decimal, so the rational model evaluates it
  exactly.
* Python functions that can raise return `Option`: `none` is the raised
  exception, `some` the normal result.
* Python slicing (`raw[a:b]`, `xs[::skip]`) and `int(bytes)` parsing are
  modelled with their actual Python semantics (index clamping, negative
  indices counted from the end, sign/whitespace/underscore tolerance of
  `int`), since the script relies on them.
-/

/-! ### WaveformDecoder (`capture_channel`, lines 189-196)

`code = b - 255 if b > 127 else b`
`voltage = (code / code_per_div) * vdiv - ofst` with `code_per_div = 25.0`. -/

/-- Byte-to-signed-code mapping of the decoder loop: `b - 255 if b > 127 else b`. -/
def byteToCode (b : Nat) : Int :=
  if b > 127 then (b : Int) - 255 else (b : Int)

/-- The fixed `code_per_div = 25.0` constant. -/
def code_per_div : ℚ := 25

/-- Voltage of a single byte: `(code / code_per_div) * vdiv - ofst`. -/
def byteVoltage (vdiv ofst : ℚ) (b : Nat) : ℚ :=
  ((byteToCode b : ℚ) / code_per_div) * vdiv - ofst

/-- The decoding loop over `wave_bytes`: one voltage per byte, in order. -/
def decodeWave (waveBytes : List Nat) (vdiv ofst : ℚ) : List ℚ :=
  waveBytes.map (byteVoltage vdiv ofst)

/-! ### TimeAxisBuilder (`main`, lines 300-303)

`dt = 1.0 / sara` (raises ZeroDivisionError iff `sara == 0`),
`times = [(i - num_points / 2) * dt for i in range(num_points)]`
where `num_points / 2` is Python true division. -/

/-- Time axis construction. `none` models the ZeroDivisionError of
`dt = 1.0 / sara` when `sara = 0`; otherwise the list comprehension. -/
def buildTimes (numPoints : Nat) (sara : ℚ) : Option (List ℚ) :=
  if sara = 0 then none
  else some ((List.range numPoints).map
    (fun (i : ℕ) => ((i : ℚ) - (numPoints : ℚ) / 2) * (1 / sara)))

/-! ### Decimator (`main`, lines 305-313)

`if args.maxpoints and num_points > args.maxpoints:`
`    skip = num_points // args.maxpoints`
`    if skip < 1: skip = 1`
`    times = times[::skip]`
`    channel_data = {ch: v[::skip] for ch, v in channel_data.items()}` -/

/-- Helper for the Python extended slice `l[::skip]`: `c` counts how many
further elements must be dropped before the next kept one. -/
def everyNthAux (skip : Nat) : List α → Nat → List α
  | [], _ => []
  | a :: rest, 0 => a :: everyNthAux skip rest (skip - 1)
  | _ :: rest, c + 1 => everyNthAux skip rest c

/-- Python extended slice `l[::skip]` for a step `skip ≥ 1`: keep the
elements at indices `0, skip, 2*skip, ...`. -/
def everyNth (skip : Nat) (l : List α) : List α := everyNthAux skip l 0

/-- `skip = num_points // maxpoints; if skip < 1: skip = 1` (Python `//`
on ints is floor division). -/
def decimSkip (numPoints : Nat) (maxpoints : Int) : Int :=
  let s := Int.fdiv (numPoints : Int) maxpoints
  if s < 1 then 1 else s

/-- The decimation step of `main`.  `maxpoints = none` models
`args.maxpoints is None`; a `some m` with `m = 0` is falsy in Python, so the
guard is `m ≠ 0 ∧ numPoints > m`.  `channels` is the `channel_data` dict as
an association list. -/
def decimate (maxpoints : Option Int) (numPoints : Nat)
    (times : List ℚ) (channels : List (Nat × List ℚ)) :
    List ℚ × List (Nat × List ℚ) :=
  match maxpoints with
  | none => (times, channels)
  | some m =>
    if m ≠ 0 ∧ (m : Int) < (numPoints : Int) then
      let skip := (decimSkip numPoints m).toNat
      (everyNth skip times, channels.map (fun p => (p.1, everyNth skip p.2)))
    else (times, channels)

/-! ### BlockExtractor (`capture_channel`, lines 175-181)

`marker = raw.find(b'#9')`
`if marker == -1: raise ValueError(...)`
`data_len = int(raw[marker + 2 : marker + 11])`
`data_start = marker + 11`
`wave_bytes = raw[data_start : data_start + data_len]` -/

/-- Resolve a Python slice endpoint against a list of length `len`:
negative endpoints count from the end, and both ends clamp into `[0, len]`. -/
def pyIdx (len : Nat) (i : Int) : Nat :=
  if i < 0 then (i + (len : Int)).toNat else min i.toNat len

/-- Python step-1 slice `l[start:stop]`. -/
def pySlice (l : List α) (start stop : Int) : List α :=
  (l.take (pyIdx l.length stop)).drop (pyIdx l.length start)

/-- `raw.find(b'#9')`: index of the first occurrence of the two-byte marker
`#9` (bytes 35, 57), or `none` when Python would return `-1`. -/
def findMarker : List Nat → Option Nat
  | [] => none
  | a :: rest =>
    match rest with
    | [] => none
    | b :: _ =>
      if a = 35 ∧ b = 57 then some 0
      else (findMarker rest).map (· + 1)

/-- ASCII whitespace accepted (and stripped) by Python `int(bytes)`. -/
def isPyWS (b : Nat) : Bool :=
  b = 32 || b = 9 || b = 10 || b = 13 || b = 11 || b = 12

/-- ASCII decimal digit. -/
def isDigitByte (b : Nat) : Bool := 48 ≤ b && b ≤ 57

/-- Strip leading and trailing ASCII whitespace, as `int(bytes)` does. -/
def stripBytesWS (l : List Nat) : List Nat :=
  ((l.dropWhile isPyWS).reverse.dropWhile isPyWS).reverse

/-- Scanner for Python's unsigned-decimal `int` grammar: digits with single
underscores allowed strictly between digits.  `prevDigit` records whether
the previous character was a digit (so the run may ever continue with `_`),
and a valid run must end with a digit. -/
def digitsScan (prevDigit : Bool) : List Nat → Bool
  | [] => prevDigit
  | c :: rest =>
    if isDigitByte c then digitsScan true rest
    else if c = 95 then prevDigit && digitsScan false rest
    else false

/-- Decimal value of a digit run, ignoring the underscores. -/
def decVal (l : List Nat) : Nat :=
  (l.filter isDigitByte).foldl (fun a c => a * 10 + (c - 48)) 0

/-- Python's unsigned-decimal grammar for `int`: nonempty, starts and ends
with a digit, single underscores only between digits. -/
def parseDigitsU (l : List Nat) : Option Nat :=
  if digitsScan false l then some (decVal l) else none

/-- Python `int(bytes)` in base 10: strip surrounding ASCII whitespace,
accept one optional `+`/`-` sign, then a digit run (underscores between
digits tolerated); anything else raises ValueError (`none`). -/
def pyIntOfBytes (bs : List Nat) : Option Int :=
  match stripBytesWS bs with
  | [] => none
  | c :: t =>
    if c = 43 then (parseDigitsU t).map (fun n => (n : Int))
    else if c = 45 then (parseDigitsU t).map (fun n => -(n : Int))
    else (parseDigitsU (c :: t)).map (fun n => (n : Int))

/-- The block-extraction part of `capture_channel`: find the `#9` marker
(ValueError when absent), parse `raw[marker+2 : marker+11]` with `int`
(ValueError when unparsable), slice `raw[marker+11 : marker+11+data_len]`. -/
def extractBlock (raw : List Nat) : Option (List Nat) :=
  match findMarker raw with
  | none => none
  | some m =>
    match pyIntOfBytes (pySlice raw ((m : Int) + 2) ((m : Int) + 11)) with
    | none => none
    | some dlen => some (pySlice raw ((m : Int) + 11) ((m : Int) + 11 + dlen))

/-- Byte values of an ASCII string, for concrete test buffers. -/
def asciiBytes (s : String) : List Nat := s.toList.map Char.toNat

/-! ### ValueParser (`parse_value`, lines 37-66)

`response = response.strip()`
`value_str = response.split()[-1] if response.split() else response`
then strip the first matching unit from a longest-first list, then an
optional one-letter SI magnitude scaling, then `float(value_str) * multiplier`. -/

/-- Python's ASCII whitespace for `str.strip()` / `str.split()`. -/
def isSpc (c : Char) : Bool :=
  c.toNat = 32 || c.toNat = 9 || c.toNat = 10 || c.toNat = 13 ||
  c.toNat = 11 || c.toNat = 12

/-- Python `str.strip()` on a character list. -/
def stripWS (s : List Char) : List Char :=
  ((s.dropWhile isSpc).reverse.dropWhile isSpc).reverse

/-- Python `str.split()` with no arguments: split on whitespace runs and
drop empty pieces. -/
def splitWS (s : List Char) : List (List Char) :=
  (s.splitOnP isSpc).filter (· ≠ [])

/-- The unit-suffix list of `parse_value`, in source order (longest first):
`['Sa/s', 'sa/s', 'pts', 'Pts', 'Hz', 'hz', 'V', 'v', 's', 'S']`. -/
def unitSuffixes : List (List Char) :=
  ["Sa/s".toList, "sa/s".toList, "pts".toList, "Pts".toList,
   "Hz".toList, "hz".toList, "V".toList, "v".toList, "s".toList, "S".toList]

/-- The unit-stripping loop: the first (hence longest) matching suffix is
removed and the loop breaks. -/
def stripUnit (s : List Char) : List Char :=
  match unitSuffixes.find? (fun u => u.isSuffixOf s) with
  | some u => s.take (s.length - u.length)
  | none => s

/-- The `si_prefixes` table: magnitude letter to multiplier
(`G: 1e9, M: 1e6, k: 1e3, m: 1e-3, u: 1e-6, n: 1e-9, p: 1e-12`). -/
def siTable : List (Char × ℚ) :=
  [('G', 1000000000), ('M', 1000000), ('k', 1000),
   ('m', 1/1000), ('u', 1/1000000), ('n', 1/1000000000),
   ('p', 1/1000000000000)]

/-- Lines 47-48: `response = response.strip()` and
`value_str = response.split()[-1] if response.split() else response`. -/
def lastToken (response : List Char) : List Char :=
  let r := stripWS response
  match (splitWS r).getLast? with
  | some t => t
  | none => r

/-- Lines 62-64: if the last character of the numeric string is an SI
magnitude letter of the table, split it off; first component is the
recognised letter (if any), second the remaining numeral. -/
def siStrip (v : List Char) : Option Char × List Char :=
  match v.getLast? with
  | some c =>
    if (siTable.map (fun p => p.1)).contains c then (some c, v.dropLast)
    else (none, v)
  | none => (none, v)

/-- The multiplier of a recognised SI letter, `1.0` when none was found. -/
def siFactor : Option Char → ℚ
  | none => 1
  | some c => (((siTable.find? (fun p => p.1 = c)).map (fun p => p.2)).getD 1)

/-- Read a maximal digit run: value so far `acc`, returns
(value, run length, rest). -/
def readDigits (acc : Nat) : List Char → Nat × Nat × List Char
  | [] => (acc, 0, [])
  | c :: rest =>
    if c.isDigit then
      let r := readDigits (acc * 10 + (c.toNat - 48)) rest
      (r.1, r.2.1 + 1, r.2.2)
    else (acc, 0, c :: rest)

/-- Python `float(str)` grammar, restricted to finite decimal/exponential
numerals (the forms the instrument protocol emits): optional sign, digits
with an optional fraction part (at least one digit overall), optional
exponent with at least one digit.  The result is the exact decomposition
`(mantissa, power of ten)` of the numeral's value; `none` models
ValueError (invalid numeral, including the empty string). -/
def floatDecomp (s : List Char) : Option (Int × Int) :=
  let sgn : Int × List Char :=
    match s with
    | '-' :: r => (-1, r)
    | '+' :: r => (1, r)
    | _ => (1, s)
  let ipr := readDigits 0 sgn.2
  let fpr : Nat × Nat × List Char :=
    match ipr.2.2 with
    | '.' :: r => readDigits 0 r
    | _ => (0, 0, ipr.2.2)
  if ipr.2.1 + fpr.2.1 = 0 then none
  else
    let mant : Int := sgn.1 * (ipr.1 * 10 ^ fpr.2.1 + fpr.1 : Nat)
    match fpr.2.2 with
    | [] => some (mant, -(fpr.2.1 : Int))
    | e :: r =>
      if e = 'e' ∨ e = 'E' then
        let esgn : Int × List Char :=
          match r with
          | '-' :: rr => (-1, rr)
          | '+' :: rr => (1, rr)
          | _ => (1, r)
        let epr := readDigits 0 esgn.2
        if epr.2.1 = 0 ∨ epr.2.2 ≠ [] then none
        else some (mant, esgn.1 * epr.1 - (fpr.2.1 : Int))
      else none

/-- The rational value of a decomposed numeral: `mantissa * 10 ^ exponent`. -/
def floatVal (p : Int × Int) : ℚ := (p.1 : ℚ) * 10 ^ p.2

/-- Python `float(str)` on the supported numerals, as an exact rational. -/
def parseFloat (s : List Char) : Option ℚ := (floatDecomp s).map floatVal

/-- `parse_value` of the script, over a character list, returning the exact
rational value; `none` models a raised ValueError. -/
def parse_value (response : List Char) : Option ℚ :=
  let v1 := stripUnit (lastToken response)
  let s := siStrip v1
  (parseFloat s.2).map (· * siFactor s.1)

/-! ### Helper lemmas -/

theorem everyNthAux_eq_drop (skip : Nat) :
    ∀ (l : List α) (c : Nat), everyNthAux skip l c = everyNth skip (l.drop c)
  | [], c => by cases c <;> simp [everyNthAux, everyNth]
  | a :: rest, 0 => by simp [everyNth]
  | a :: rest, c + 1 => by
    simp only [everyNthAux, List.drop_succ_cons]
    exact everyNthAux_eq_drop skip rest c

theorem everyNth_nil (skip : Nat) : everyNth skip ([] : List α) = [] := rfl

theorem everyNth_cons (skip : Nat) (a : α) (rest : List α) :
    everyNth skip (a :: rest) = a :: everyNth skip (rest.drop (skip - 1)) := by
  show everyNthAux skip (a :: rest) 0 = _
  simp only [everyNthAux]
  rw [everyNthAux_eq_drop]

theorem everyNth_length_le (skip : Nat) (hs : 1 ≤ skip) :
    ∀ (n : Nat) (l : List α), l.length ≤ n →
      (everyNth skip l).length = (l.length + skip - 1) / skip := by
  intro n
  induction n with
  | zero =>
    intro l hl
    have : l = [] := List.eq_nil_of_length_eq_zero (by omega)
    subst this
    simp [everyNth_nil, Nat.div_eq_of_lt (show skip - 1 < skip by omega)]
  | succ n ih =>
    intro l hl
    cases l with
    | nil => simp [everyNth_nil, Nat.div_eq_of_lt (show skip - 1 < skip by omega)]
    | cons a rest =>
      rw [everyNth_cons]
      simp only [List.length_cons]
      rw [ih (rest.drop (skip - 1)) (by simp only [List.length_drop]; simp at hl; omega)]
      simp only [List.length_drop]
      have e1 : rest.length + 1 + skip - 1 = rest.length + skip := by omega
      rw [e1, Nat.add_div_right _ (by omega : 0 < skip)]
      rcases le_or_lt (skip - 1) rest.length with h | h
      · have e2 : rest.length - (skip - 1) + skip - 1 = rest.length := by omega
        rw [e2]
      · have e3 : rest.length - (skip - 1) + skip - 1 = skip - 1 := by omega
        rw [e3, Nat.div_eq_of_lt (by omega), Nat.div_eq_of_lt (by omega)]

theorem everyNth_length (skip : Nat) (hs : 1 ≤ skip) (l : List α) :
    (everyNth skip l).length = (l.length + skip - 1) / skip :=
  everyNth_length_le skip hs l.length l le_rfl

theorem everyNth_get_le (skip : Nat) (hs : 1 ≤ skip) :
    ∀ (n : Nat) (l : List α), l.length ≤ n →
      ∀ j : Nat, (everyNth skip l).get? j = l.get? (j * skip) := by
  intro n
  induction n with
  | zero =>
    intro l hl j
    have : l = [] := List.eq_nil_of_length_eq_zero (by omega)
    subst this
    simp [everyNth_nil]
  | succ n ih =>
    intro l hl j
    cases l with
    | nil => simp [everyNth_nil]
    | cons a rest =>
      rw [everyNth_cons]
      cases j with
      | zero => simp
      | succ j =>
        rw [List.get?_cons_succ,
          ih (rest.drop (skip - 1)) (by simp only [List.length_drop]; simp at hl; omega) j,
          List.get?_drop]
        have e : (j + 1) * skip = (skip - 1 + j * skip) + 1 := by
          have : (j + 1) * skip = j * skip + skip := by ring
          omega
        rw [e, List.get?_cons_succ]

theorem everyNth_get (skip : Nat) (hs : 1 ≤ skip) (l : List α) (j : Nat) :
    (everyNth skip l).get? j = l.get? (j * skip) :=
  everyNth_get_le skip hs l.length l le_rfl j

theorem dropWhile_eq_self_of_head (p : α → Bool) (l : List α)
    (h : ∀ x ∈ l, p x = false) : l.dropWhile p = l := by
  cases l with
  | nil => rfl
  | cons a rest =>
    rw [List.dropWhile_cons, if_neg]
    simp [h a (by simp)]

theorem digit_not_ws (b : Nat) (h : isDigitByte b = true) : isPyWS b = false := by
  simp only [isDigitByte, Bool.and_eq_true, decide_eq_true_eq] at h
  simp only [isPyWS, Bool.or_eq_false_iff, decide_eq_false_iff_not]
  omega

theorem stripBytesWS_digits (l : List Nat)
    (h : ∀ x ∈ l, isDigitByte x = true) : stripBytesWS l = l := by
  unfold stripBytesWS
  rw [dropWhile_eq_self_of_head _ _ (fun x hx => digit_not_ws x (h x hx))]
  rw [dropWhile_eq_self_of_head _ _
    (fun x hx => digit_not_ws x (h x (List.mem_reverse.mp hx)))]
  exact List.reverse_reverse l

theorem digitsScan_all_digits :
    ∀ (l : List Nat), (∀ x ∈ l, isDigitByte x = true) → l ≠ [] →
      ∀ b : Bool, digitsScan b l = true
  | [], _, hne, _ => absurd rfl hne
  | c :: rest, h, _, b => by
    rw [digitsScan, if_pos (h c (by simp))]
    cases rest with
    | nil => rfl
    | cons d rest2 =>
      exact digitsScan_all_digits (d :: rest2)
        (fun x hx => h x (by simp [hx, List.mem_cons])) (by simp) true

theorem parseDigitsU_all_digits (l : List Nat)
    (h : ∀ x ∈ l, isDigitByte x = true) (hne : l ≠ []) :
    parseDigitsU l = some (decVal l) := by
  rw [parseDigitsU, if_pos (digitsScan_all_digits l h hne false)]

theorem pyIntOfBytes_digits (l : List Nat)
    (h : ∀ x ∈ l, isDigitByte x = true) (hne : l ≠ []) :
    pyIntOfBytes l = some ((decVal l : Nat) : Int) := by
  cases l with
  | nil => exact absurd rfl hne
  | cons c t =>
    have hc : isDigitByte c = true := h c (by simp)
    have hc' : 48 ≤ c ∧ c ≤ 57 := by
      simpa only [isDigitByte, Bool.and_eq_true, decide_eq_true_eq] using hc
    rw [pyIntOfBytes, stripBytesWS_digits _ h]
    simp only
    rw [if_neg (by omega), if_neg (by omega),
      parseDigitsU_all_digits _ h (by simp)]
    rfl

theorem pyIdx_le (len : Nat) (i : Int) : pyIdx len i ≤ len := by
  unfold pyIdx
  split
  · omega
  · exact min_le_right _ _

theorem pySlice_length (l : List α) (start stop : Int) :
    (pySlice l start stop).length = pyIdx l.length stop - pyIdx l.length start := by
  simp only [pySlice, List.length_drop, List.length_take]
  have := pyIdx_le l.length stop
  omega

theorem isMarkerAt_cons (a : Nat) (rest : List Nat) (j : Nat) :
    (rest.get? j = some 35 ∧ rest.get? (j + 1) = some 57) ↔
    ((a :: rest).get? (j + 1) = some 35 ∧ (a :: rest).get? (j + 2) = some 57) := by
  simp [List.get?_cons_succ]

theorem findMarker_spec :
    ∀ (raw : List Nat) (m : Nat), findMarker raw = some m →
      (raw.get? m = some 35 ∧ raw.get? (m + 1) = some 57) ∧
      ∀ j, j < m → ¬(raw.get? j = some 35 ∧ raw.get? (j + 1) = some 57)
  | [], m, hm => by simp [findMarker] at hm
  | a :: rest, m, hm => by
    cases rest with
    | nil => simp [findMarker] at hm
    | cons b rest2 =>
      rw [findMarker] at hm
      by_cases hab : a = 35 ∧ b = 57
      · rw [if_pos hab] at hm
        obtain rfl : m = 0 := by simpa using hm.symm
        exact ⟨⟨by simp [hab.1], by simp [hab.2]⟩, fun j hj => by omega⟩
      · rw [if_neg hab] at hm
        obtain ⟨m', hm', rfl⟩ :
            ∃ m', findMarker (b :: rest2) = some m' ∧ m = m' + 1 := by
          cases hfm : findMarker (b :: rest2) with
          | none => rw [hfm] at hm; simp at hm
          | some k => rw [hfm] at hm; simp at hm; exact ⟨k, rfl, hm.symm⟩
        obtain ⟨hmk, hmin⟩ := findMarker_spec (b :: rest2) m' hm'
        refine ⟨⟨by simpa using hmk.1, by simpa using hmk.2⟩, ?_⟩
        intro j hj
        cases j with
        | zero =>
          intro ⟨h1, h2⟩
          simp only [List.get?_cons_zero, Option.some.injEq] at h1
          simp only [List.get?_cons_succ, List.get?_cons_zero,
            Option.some.injEq] at h2
          exact hab ⟨h1, h2⟩
        | succ j =>
          intro hv
          exact hmin j (by omega) ((isMarkerAt_cons a (b :: rest2) j).mpr hv)

theorem extractBlock_eq (raw : List Nat) (m : Nat)
    (hm : findMarker raw = some m) :
    extractBlock raw =
      (pyIntOfBytes (pySlice raw ((m : Int) + 2) ((m : Int) + 11))).map
        (fun d => pySlice raw ((m : Int) + 11) ((m : Int) + 11 + d)) := by
  rw [extractBlock, hm]
  cases h : pyIntOfBytes (pySlice raw ((m : Int) + 2) ((m : Int) + 11)) <;>
    simp [h]

theorem decimSkip_nat (N m : Nat) (hm : 0 < m) (hN : m ≤ N) :
    (decimSkip N ((m : Nat) : Int)).toNat = N / m ∧ 1 ≤ N / m := by
  have hq : 1 ≤ N / m := (Nat.one_le_div_iff hm).mpr hN
  have h1 : Int.fdiv ((N : Nat) : Int) ((m : Nat) : Int) = ((N / m : Nat) : Int) :=
    (Int.ofNat_fdiv N m).symm
  constructor
  · simp only [decimSkip, h1]
    rw [if_neg (by exact_mod_cast Nat.not_lt.mpr hq)]
    exact Int.toNat_ofNat _
  · exact hq

theorem decim_div_bound (N m L : Nat) (hm : 0 < m) (hN : m < N) (hL : L ≤ N) :
    (L + N / m - 1) / (N / m) ≤ 2 * m - 1 := by
  obtain ⟨m', rfl⟩ : ∃ m', m = m' + 1 := ⟨m - 1, by omega⟩
  have hq1 : 1 ≤ N / (m' + 1) := (Nat.one_le_div_iff (by omega)).mpr (by omega)
  obtain ⟨q', hq⟩ : ∃ q', N / (m' + 1) = q' + 1 := ⟨N / (m' + 1) - 1, by omega⟩
  have hN2 : N < (q' + 2) * (m' + 1) := by
    rw [← Nat.div_lt_iff_lt_mul (by omega : 0 < m' + 1), hq]
    omega
  rw [hq]
  have hlt : (L + (q' + 1) - 1) / (q' + 1) < 2 * (m' + 1) := by
    rw [Nat.div_lt_iff_lt_mul (by omega : 0 < q' + 1)]
    have e1 : (q' + 2) * (m' + 1) = q' * m' + q' + 2 * m' + 2 := by ring
    have e2 : 2 * (m' + 1) * (q' + 1) = 2 * (q' * m') + 2 * m' + 2 * q' + 2 := by
      ring
    rw [e2]
    rw [e1] at hN2
    omega
  omega

/-! ### Claim theorems -/

/-- Claim C1: for every input byte b (0-255) the WaveformDecoder maps b to
signed code b when b ≤ 127 and to b - 255 when b > 127; in particular
byte 0 ↦ 0, 1 ↦ 1, 127 ↦ 127, 128 ↦ -127, 254 ↦ -1, 255 ↦ 0. -/
theorem byteToCode_table :
    (∀ b : Nat, b ≤ 255 → byteToCode b =
      if b ≤ 127 then (b : Int) else (b : Int) - 255) ∧
    byteToCode 0 = 0 ∧ byteToCode 1 = 1 ∧ byteToCode 127 = 127 ∧
    byteToCode 128 = -127 ∧ byteToCode 254 = -1 ∧ byteToCode 255 = 0 := by
  refine ⟨fun b _ => ?_, by decide, by decide, by decide, by decide,
    by decide, by decide⟩
  rw [byteToCode]
  rcases le_or_lt b 127 with h | h
  · rw [if_neg (by omega), if_pos h]
  · rw [if_pos (by omega), if_neg (by omega)]

/-- Witness for the hypothesis of the first conjunct of Claim C1's theorem,
evaluated at byte 254. -/
theorem byteToCode_table_witness :
    (254 : Nat) ≤ 255 ∧ byteToCode 254 =
      if (254 : Nat) ≤ 127 then ((254 : Nat) : Int) else ((254 : Nat) : Int) - 255 :=
  ⟨by decide, byteToCode_table.1 254 (by decide)⟩

/-- Claim C2: the WaveformDecoder produces exactly one voltage per input
byte, in input order, with value (signed_code / 25.0) * scale - offset; for
scale 1 and offset 0 the voltage of each byte is its signed code divided by
25, and the output length equals the input byte count. -/
theorem decodeWave_spec (waveBytes : List Nat) (scale offset : ℚ) :
    (decodeWave waveBytes scale offset).length = waveBytes.length ∧
    (∀ i : Nat, (decodeWave waveBytes scale offset).get? i =
      (waveBytes.get? i).map
        (fun b => ((byteToCode b : ℚ) / 25) * scale - offset)) ∧
    decodeWave waveBytes 1 0 =
      waveBytes.map (fun b => ((byteToCode b : ℚ) / 25)) := by
  refine ⟨by simp [decodeWave], fun i => ?_, ?_⟩
  · rw [decodeWave, List.get?_map]
    rcases waveBytes.get? i with _ | b
    · rfl
    · simp [byteVoltage, code_per_div]
  · rw [decodeWave]
    exact List.map_congr_left (fun b _ => by simp [byteVoltage, code_per_div])

/-- Claim C5: the ValueParser strips the unit suffix of the trailing token
(longest known suffix first — the suffix list is ordered by non-increasing
length) and applies the SI magnitude letter; the four protocol examples
parse to 0.2, 0.001, 5e8 and 5e8 exactly. -/
theorem parse_value_examples :
    parse_value "C1:VDIV 2.00E-01V".toList = some 0.2 ∧
    parse_value "TDIV 1.00E-03s".toList = some 0.001 ∧
    parse_value "SARA 5.00E+08Sa/s".toList = some 500000000 ∧
    parse_value "SARA 500MSa/s".toList = some 500000000 ∧
    unitSuffixes.map (fun u => u.length) = [4, 4, 3, 3, 2, 2, 1, 1, 1, 1] := by
  refine ⟨?_, ?_, ?_, ?_, by decide⟩
  · simp only [parse_value, parseFloat,
      show stripUnit (lastToken "C1:VDIV 2.00E-01V".toList) = "2.00E-01".toList
        from by decide]
    rw [show siStrip "2.00E-01".toList = (none, "2.00E-01".toList) from by decide]
    rw [show floatDecomp "2.00E-01".toList = some (200, -3) from by decide]
    simp only [Option.map_some']
    norm_num [floatVal, siFactor]
  · simp only [parse_value, parseFloat,
      show stripUnit (lastToken "TDIV 1.00E-03s".toList) = "1.00E-03".toList
        from by decide]
    rw [show siStrip "1.00E-03".toList = (none, "1.00E-03".toList) from by decide]
    rw [show floatDecomp "1.00E-03".toList = some (100, -5) from by decide]
    simp only [Option.map_some']
    norm_num [floatVal, siFactor]
  · simp only [parse_value, parseFloat,
      show stripUnit (lastToken "SARA 5.00E+08Sa/s".toList) = "5.00E+08".toList
        from by decide]
    rw [show siStrip "5.00E+08".toList = (none, "5.00E+08".toList) from by decide]
    rw [show floatDecomp "5.00E+08".toList = some (500, 6) from by decide]
    simp only [Option.map_some']
    norm_num [floatVal, siFactor]
  · simp only [parse_value, parseFloat,
      show stripUnit (lastToken "SARA 500MSa/s".toList) = "500M".toList
        from by decide]
    rw [show siStrip "500M".toList = (some 'M', "500".toList) from by decide]
    rw [show floatDecomp "500".toList = some (500, 0) from by decide]
    rw [show siFactor (some 'M') = 1000000 from by decide]
    simp only [Option.map_some']
    norm_num [floatVal]

/-- Claim C6: for sample count N and sample rate sara > 0 the
TimeAxisBuilder produces exactly N timestamps t_i = (i - N/2) / sara (with
real division for N/2), the axis is strictly increasing, and for N = 4,
sara = 1 the axis is [-2, -1, 0, 1]. -/
theorem buildTimes_spec (N : Nat) (sara : ℚ) (hs : 0 < sara) :
    buildTimes 4 1 = some [-2, -1, 0, 1] ∧
    ∃ ts, buildTimes N sara = some ts ∧ ts.length = N ∧
      (∀ i : Nat, i < N → ts.get? i = some (((i : ℚ) - (N : ℚ) / 2) / sara)) ∧
      (∀ (i : Nat) (x y : ℚ), ts.get? i = some x → ts.get? (i + 1) = some y →
        x < y) := by
  constructor
  · rw [buildTimes, if_neg (by norm_num : ¬(1 : ℚ) = 0),
      show List.range 4 = [0, 1, 2, 3] from by decide]
    norm_num
  · have hne : ¬sara = 0 := ne_of_gt hs
    refine ⟨(List.range N).map
        (fun (i : ℕ) => ((i : ℚ) - (N : ℚ) / 2) * (1 / sara)),
      by rw [buildTimes, if_neg hne], by simp, fun i hi => ?_, ?_⟩
    · rw [List.get?_map, List.get?_range hi, Option.map_some', mul_one_div]
    · intro i x y hx hy
      obtain ⟨hiy, -⟩ := List.get?_eq_some.mp hy
      simp only [List.length_map, List.length_range] at hiy
      have hix : i < N := by omega
      rw [List.get?_map, List.get?_range hix, Option.map_some',
        Option.some.injEq] at hx
      rw [List.get?_map, List.get?_range hiy, Option.map_some',
        Option.some.injEq] at hy
      subst hx hy
      have h1 : (0 : ℚ) < 1 / sara := by positivity
      refine mul_lt_mul_of_pos_right (sub_lt_sub_right ?_ _) h1
      push_cast
      linarith

/-- Witness for Claim C6's theorem at N = 4, sara = 1. -/
theorem buildTimes_spec_witness :
    buildTimes 4 1 = some [-2, -1, 0, 1] ∧
    ∃ ts, buildTimes 4 1 = some ts ∧ ts.length = 4 ∧
      (∀ i : Nat, i < 4 → ts.get? i = some (((i : ℚ) - (4 : ℚ) / 2) / 1)) ∧
      (∀ (i : Nat) (x y : ℚ), ts.get? i = some x → ts.get? (i + 1) = some y →
        x < y) :=
  buildTimes_spec 4 1 (by norm_num)

/-- Claim C7 counterexample: at sara = -1 (which is ≤ 0) the time-axis code
does not fail — `1.0 / sara` raises only on zero — and produces the
two-point axis [1, 0]. -/
theorem buildTimes_neg_rate_cex :
    (-1 : ℚ) ≤ 0 ∧ buildTimes 2 (-1) = some [1, 0] := by
  refine ⟨by norm_num, ?_⟩
  rw [buildTimes, if_neg (by norm_num : ¬(-1 : ℚ) = 0),
    show List.range 2 = [0, 1] from by decide]
  norm_num

/-- Claim C7 amended: building the time axis fails only for sara = 0 (the
ZeroDivisionError of `dt = 1.0 / sara`); for every nonzero sara — negative
rates included — it produces N timestamps without error. -/
theorem buildTimes_fail_only_zero (N : Nat) (sara : ℚ) (hs : sara ≠ 0) :
    buildTimes N 0 = none ∧
    ∃ ts, buildTimes N sara = some ts ∧ ts.length = N := by
  refine ⟨by rw [buildTimes, if_pos rfl],
    (List.range N).map (fun (i : ℕ) => ((i : ℚ) - (N : ℚ) / 2) * (1 / sara)),
    by rw [buildTimes, if_neg hs], by simp⟩

/-- Witness for Claim C7's amended theorem at N = 2, sara = -1. -/
theorem buildTimes_fail_only_zero_witness :
    (-1 : ℚ) ≠ 0 ∧ (buildTimes 2 0 = none ∧
      ∃ ts, buildTimes 2 (-1) = some ts ∧ ts.length = 2) :=
  ⟨by norm_num, buildTimes_fail_only_zero 2 (-1) (by norm_num)⟩

/-- Claim C3 counterexample: in buffer b"#9000000005HI" the declared length
is 5 but only 2 payload bytes follow; extraction does not fail — Python
slicing silently truncates — and returns the 2-byte payload b"HI". -/
theorem extract_truncated_cex :
    pyIntOfBytes (pySlice (asciiBytes "#9000000005HI") 2 11) = some 5 ∧
    extractBlock (asciiBytes "#9000000005HI") = some (asciiBytes "HI") ∧
    (asciiBytes "HI").length = 2 := by
  refine ⟨by decide, by decide, by decide⟩

/-- Claim C3 amended: extraction never fails on a truncated payload;
whenever the marker is found and the length field parses to d ≥ 0, it
succeeds and the payload length is min(declared length, bytes available
after the length field) — silently shorter than declared when the buffer
is short. -/
theorem extract_payload_len (raw : List Nat) (m : Nat) (d : Int)
    (hm : findMarker raw = some m)
    (hd : pyIntOfBytes (pySlice raw ((m : Int) + 2) ((m : Int) + 11)) = some d)
    (hd0 : 0 ≤ d) :
    ∃ p, extractBlock raw = some p ∧
      p.length = min d.toNat (raw.length - (m + 11)) := by
  refine ⟨_, by rw [extractBlock_eq raw m hm, hd, Option.map_some'], ?_⟩
  rw [pySlice_length]
  simp only [pyIdx]
  rw [if_neg (by omega), if_neg (by omega)]
  omega

/-- Witness for Claim C3's amended theorem: declared length 9, available 5
— the payload comes back with 5 bytes. -/
theorem extract_payload_len_witness :
    findMarker (asciiBytes "junk#9000000009HELLO") = some 4 ∧
    pyIntOfBytes (pySlice (asciiBytes "junk#9000000009HELLO")
      ((4 : Int) + 2) ((4 : Int) + 11)) = some 9 ∧
    (0 : Int) ≤ 9 ∧
    ∃ p, extractBlock (asciiBytes "junk#9000000009HELLO") = some p ∧
      p.length = min (9 : Int).toNat
        ((asciiBytes "junk#9000000009HELLO").length - (4 + 11)) :=
  ⟨by decide, by decide, by decide,
    extract_payload_len _ 4 9 (by decide) (by decide) (by decide)⟩

/-- Claim C8 counterexample: the nine bytes following the marker are
b"+00000005" — not all ASCII decimal digits — yet `int()` accepts the sign
and extraction succeeds with payload b"HELLO" instead of failing. -/
theorem extract_lenfield_cex :
    (pySlice (asciiBytes "#9+00000005HELLOx") 2 11).all isDigitByte = false ∧
    extractBlock (asciiBytes "#9+00000005HELLOx") = some (asciiBytes "HELLO") := by
  refine ⟨by decide, by decide⟩

/-- Claim C8 amended: the length field is the slice of (up to) 9 bytes
after the marker, parsed with Python `int` semantics; a nonempty all-digit
field always parses to its decimal value and extraction proceeds, but
`int` also tolerates surrounding whitespace, a sign, and underscores, so a
non-all-digit field need not fail. -/
theorem extract_lenfield_digits (raw : List Nat) (m : Nat)
    (hm : findMarker raw = some m)
    (hne : pySlice raw ((m : Int) + 2) ((m : Int) + 11) ≠ [])
    (hd : ∀ x ∈ pySlice raw ((m : Int) + 2) ((m : Int) + 11),
      isDigitByte x = true) :
    (pySlice raw ((m : Int) + 2) ((m : Int) + 11)).length ≤ 9 ∧
    pyIntOfBytes (pySlice raw ((m : Int) + 2) ((m : Int) + 11)) =
      some ((decVal (pySlice raw ((m : Int) + 2) ((m : Int) + 11)) : Nat) : Int) ∧
    extractBlock raw ≠ none := by
  refine ⟨?_, pyIntOfBytes_digits _ hd hne, ?_⟩
  · rw [pySlice_length]
    simp only [pyIdx]
    rw [if_neg (by omega), if_neg (by omega)]
    omega
  · rw [extractBlock_eq raw m hm, pyIntOfBytes_digits _ hd hne,
      Option.map_some']
    simp

/-- Witness for Claim C8's amended theorem on b"junk#9000000005HELLOtrailer"
(marker at 4, all-digit length field 000000005). -/
theorem extract_lenfield_digits_witness :
    findMarker (asciiBytes "junk#9000000005HELLOtrailer") = some 4 ∧
    pySlice (asciiBytes "junk#9000000005HELLOtrailer")
      ((4 : Int) + 2) ((4 : Int) + 11) ≠ [] ∧
    (∀ x ∈ pySlice (asciiBytes "junk#9000000005HELLOtrailer")
      ((4 : Int) + 2) ((4 : Int) + 11), isDigitByte x = true) ∧
    ((pySlice (asciiBytes "junk#9000000005HELLOtrailer")
        ((4 : Int) + 2) ((4 : Int) + 11)).length ≤ 9 ∧
      pyIntOfBytes (pySlice (asciiBytes "junk#9000000005HELLOtrailer")
          ((4 : Int) + 2) ((4 : Int) + 11)) =
        some ((decVal (pySlice (asciiBytes "junk#9000000005HELLOtrailer")
          ((4 : Int) + 2) ((4 : Int) + 11)) : Nat) : Int) ∧
      extractBlock (asciiBytes "junk#9000000005HELLOtrailer") ≠ none) :=
  ⟨by decide, by decide, by decide,
    extract_lenfield_digits _ 4 (by decide) (by decide) (by decide)⟩

/-- Claim C10: extraction uses the first (lowest-index) occurrence of the
two-byte marker: the marker bytes 35 57 ('#9') sit at index m and at no
smaller index, and the length field and payload are sliced relative to
this m, ignoring everything before it. -/
theorem extract_first_marker (raw : List Nat) (m : Nat)
    (hm : findMarker raw = some m) :
    (raw.get? m = some 35 ∧ raw.get? (m + 1) = some 57) ∧
    (∀ j, j < m → ¬(raw.get? j = some 35 ∧ raw.get? (j + 1) = some 57)) ∧
    extractBlock raw =
      (pyIntOfBytes (pySlice raw ((m : Int) + 2) ((m : Int) + 11))).map
        (fun d => pySlice raw ((m : Int) + 11) ((m : Int) + 11 + d)) :=
  ⟨(findMarker_spec raw m hm).1, (findMarker_spec raw m hm).2,
    extractBlock_eq raw m hm⟩

/-- Witness for Claim C10's theorem on b"junk#9000000005HELLOtrailer"
(the marker is at index 4; the leading junk is ignored). -/
theorem extract_first_marker_witness :
    ((asciiBytes "junk#9000000005HELLOtrailer").get? 4 = some 35 ∧
      (asciiBytes "junk#9000000005HELLOtrailer").get? 5 = some 57) ∧
    (∀ j, j < 4 →
      ¬((asciiBytes "junk#9000000005HELLOtrailer").get? j = some 35 ∧
        (asciiBytes "junk#9000000005HELLOtrailer").get? (j + 1) = some 57)) ∧
    extractBlock (asciiBytes "junk#9000000005HELLOtrailer") =
      (pyIntOfBytes (pySlice (asciiBytes "junk#9000000005HELLOtrailer")
          ((4 : Int) + 2) ((4 : Int) + 11))).map
        (fun d => pySlice (asciiBytes "junk#9000000005HELLOtrailer")
          ((4 : Int) + 11) ((4 : Int) + 11 + d)) :=
  extract_first_marker _ 4 (by decide)

/-- Claim C4 counterexample: N = 5 current points, budget M = 2 > 0; the
Decimator runs (5 > 2), computes skip = 5 // 2 = 2, and the decimated time
axis has 3 points — more than the maximum M = 2. -/
theorem decimate_budget_cex :
    ((0 : Int) < 2 ∧ (2 : Int) < 5) ∧
    (decimate (some 2) 5 ([0, 1, 2, 3, 4] : List ℚ)
      [(1, [0, 1, 2, 3, 4])]).1.length = 3 ∧
    ¬((decimate (some 2) 5 ([0, 1, 2, 3, 4] : List ℚ)
      [(1, [0, 1, 2, 3, 4])]).1.length ≤ 2) := by
  refine ⟨by decide, by decide, by decide⟩

/-- Claim C4 amended: with budget M > 0 and N > M current points (axis of
length N, channels no longer than N), the decimated axis and channels have
at most 2*M - 1 points each — the stride N // M bounds the output near M
but can overshoot the budget by up to M - 1 points. -/
theorem decimate_budget_bound (m N : Nat) (times : List ℚ)
    (channels : List (Nat × List ℚ))
    (hm : 0 < m) (hN : m < N) (ht : times.length = N)
    (hch : ∀ p ∈ channels, (p.2).length ≤ N) :
    (decimate (some ((m : Nat) : Int)) N times channels).1.length ≤ 2 * m - 1 ∧
    ∀ q ∈ (decimate (some ((m : Nat) : Int)) N times channels).2,
      (q.2).length ≤ 2 * m - 1 := by
  obtain ⟨hskip, hq1⟩ := decimSkip_nat N m hm (le_of_lt hN)
  have hcond : ((m : Nat) : Int) ≠ 0 ∧ ((m : Nat) : Int) < ((N : Nat) : Int) := by
    constructor
    · exact_mod_cast Nat.pos_iff_ne_zero.mp hm
    · exact_mod_cast hN
  rw [decimate]
  rw [if_pos hcond]
  simp only [hskip]
  constructor
  · rw [everyNth_length _ hq1, ht]
    exact decim_div_bound N m N hm hN le_rfl
  · intro q hq
    simp only [List.mem_map] at hq
    obtain ⟨p, hp, rfl⟩ := hq
    rw [everyNth_length _ hq1]
    calc ((p.2).length + N / m - 1) / (N / m)
        ≤ (N + N / m - 1) / (N / m) := by
          apply Nat.div_le_div_right
          have := hch p hp
          omega
      _ ≤ 2 * m - 1 := decim_div_bound N m N hm hN le_rfl

/-- Witness for Claim C4's amended theorem at M = 2, N = 5. -/
theorem decimate_budget_bound_witness :
    (0 < 2 ∧ 2 < 5 ∧ ([0, 1, 2, 3, 4] : List ℚ).length = 5 ∧
      ∀ p ∈ [((1 : Nat), ([0, 1, 2, 3, 4] : List ℚ))], (p.2).length ≤ 5) ∧
    ((decimate (some ((2 : Nat) : Int)) 5 [0, 1, 2, 3, 4]
        [(1, [0, 1, 2, 3, 4])]).1.length ≤ 2 * 2 - 1 ∧
      ∀ q ∈ (decimate (some ((2 : Nat) : Int)) 5 [0, 1, 2, 3, 4]
        [(1, [0, 1, 2, 3, 4])]).2, (q.2).length ≤ 2 * 2 - 1) :=
  ⟨⟨by decide, by decide, by decide, by decide⟩,
    decimate_budget_bound 2 5 [0, 1, 2, 3, 4] [(1, [0, 1, 2, 3, 4])]
      (by decide) (by decide) (by decide) (by decide)⟩

/-- Claim C9 counterexample: a CaptureResult whose channel 2 is shorter
than the axis (the code tolerates ragged channels — `save_csv` pads
missing cells): decimating N = 5, M = 2 leaves the axis and channel 1 with
3 points but channel 2 with only 2, so the outputs do not all have equal
length or identical retained index sets. -/
theorem decimate_align_cex :
    (decimate (some 2) 5 ([0, 1, 2, 3, 4] : List ℚ)
      [(1, [0, 1, 2, 3, 4]), (2, [10, 11, 12])]).1.length = 3 ∧
    ∃ q ∈ (decimate (some 2) 5 ([0, 1, 2, 3, 4] : List ℚ)
      [(1, [0, 1, 2, 3, 4]), (2, [10, 11, 12])]).2, (q.2).length ≠ 3 := by
  refine ⟨by decide, by decide⟩

/-- Claim C9 amended: the Decimator applies one common stride
skip = N // M to the axis and to every channel, so position j of every
output is position j * skip of the corresponding input (identical retained
index sets within each sequence's own length); outputs have equal length
whenever the channel is as long as the axis, while a shorter channel keeps
only the prefix of the axis's retained indices. -/
theorem decimate_aligned (m N : Nat) (times : List ℚ)
    (channels : List (Nat × List ℚ)) (hm : 0 < m) (hN : m < N) :
    ∃ skip, skip = N / m ∧ 1 ≤ skip ∧
      (decimate (some ((m : Nat) : Int)) N times channels).1 =
        everyNth skip times ∧
      (decimate (some ((m : Nat) : Int)) N times channels).2 =
        channels.map (fun p => (p.1, everyNth skip p.2)) ∧
      (∀ j : Nat, (everyNth skip times).get? j = times.get? (j * skip)) ∧
      (∀ p ∈ channels, ∀ j : Nat,
        (everyNth skip p.2).get? j = p.2.get? (j * skip)) ∧
      (∀ p ∈ channels, (p.2).length = times.length →
        (everyNth skip p.2).length = (everyNth skip times).length) := by
  obtain ⟨hskip, hq1⟩ := decimSkip_nat N m hm (le_of_lt hN)
  have hcond : ((m : Nat) : Int) ≠ 0 ∧ ((m : Nat) : Int) < ((N : Nat) : Int) := by
    constructor
    · exact_mod_cast Nat.pos_iff_ne_zero.mp hm
    · exact_mod_cast hN
  refine ⟨N / m, rfl, hq1, ?_, ?_, ?_, ?_, ?_⟩
  · rw [decimate, if_pos hcond, hskip]
  · rw [decimate, if_pos hcond, hskip]
  · exact fun j => everyNth_get _ hq1 times j
  · exact fun p _ j => everyNth_get _ hq1 p.2 j
  · intro p _ hlen
    rw [everyNth_length _ hq1, everyNth_length _ hq1, hlen]

/-- Witness for Claim C9's amended theorem at M = 2, N = 5 with two equal
channels. -/
theorem decimate_aligned_witness :
    (0 < 2 ∧ 2 < 5) ∧
    ∃ skip, skip = 5 / 2 ∧ 1 ≤ skip ∧
      (decimate (some ((2 : Nat) : Int)) 5 ([0, 1, 2, 3, 4] : List ℚ)
        [(1, [0, 1, 2, 3, 4])]).1 = everyNth skip [0, 1, 2, 3, 4] ∧
      (decimate (some ((2 : Nat) : Int)) 5 ([0, 1, 2, 3, 4] : List ℚ)
        [(1, [0, 1, 2, 3, 4])]).2 =
        List.map (fun p => (p.1, everyNth skip p.2)) [(1, [0, 1, 2, 3, 4])] ∧
      (∀ j : Nat, (everyNth skip ([0, 1, 2, 3, 4] : List ℚ)).get? j =
        ([0, 1, 2, 3, 4] : List ℚ).get? (j * skip)) ∧
      (∀ p ∈ [((1 : Nat), ([0, 1, 2, 3, 4] : List ℚ))], ∀ j : Nat,
        (everyNth skip p.2).get? j = p.2.get? (j * skip)) ∧
      (∀ p ∈ [((1 : Nat), ([0, 1, 2, 3, 4] : List ℚ))],
        (p.2).length = ([0, 1, 2, 3, 4] : List ℚ).length →
        (everyNth skip p.2).length =
          (everyNth skip ([0, 1, 2, 3, 4] : List ℚ)).length) :=
  ⟨⟨by decide, by decide⟩,
    decimate_aligned 2 5 [0, 1, 2, 3, 4] [(1, [0, 1, 2, 3, 4])]
      (by decide) (by decide)⟩
